import Mathlib

/-!
Verification of the mcuboot-rs bootloader core against its specification.

The development shallowly embeds the Rust sources:
  * `src/storage/src/lib.rs`   - argument-checking helpers and error type
  * `src/simflash/src/lib.rs`  - the in-memory NOR flash simulator
  * `src/boot/src/image.rs`    - image header / TLV parsing and validation
  * `src/boot/src/status.rs`   - upgrade status layout computation

Modelling conventions:
  * `usize` is modelled as `Nat` with the host (test) width of 64 bits;
    where the Rust code performs an unchecked addition that could overflow
    `usize`, the model compares against `2 ^ 64` and returns `none`,
    mirroring the overflow panic of a debug build.
  * Bytes are modelled as `Nat`; real flash contents are below 256.
  * Functions that can panic in Rust (assertion failures, arithmetic
    underflow or overflow, out-of-range `heapless::Vec::push` unwraps,
    division by zero) return `Option _`, with `none` standing for the
    panic (or, for `install` with `write_size = 0`, divergence).
  * Flash byte arrays and page-state arrays are modelled as total
    functions `Nat -> _` together with explicit `capacity` / `numPages`
    fields; a successful Rust run never indexes them out of bounds.
  * The simulator read/write/erase calls `pages(from, to)`, which
    evaluates `to - 1`; with `to = 0` a debug build panics, which the
    model renders as `none` before `pages` is consulted.
  * Rust keywords `from` and `to` are rendered as `from_` and `to_`.
-/

set_option linter.unusedVariables false
set_option maxRecDepth 100000

deriving instance DecidableEq for Except

/-! ## SHA-256 (model of the `sha2` crate dependency, per FIPS 180-4) -/

/-- Addition modulo 2^32, the wrapping addition on `u32`. -/
def add32 (a b : Nat) : Nat := (a + b) % 2 ^ 32

/-- Rotate a 32-bit word right by n positions. -/
def rotr32 (x n : Nat) : Nat := ((x >>> n) ||| (x <<< (32 - n))) % 2 ^ 32

/-- Bitwise complement of a 32-bit word. -/
def not32 (x : Nat) : Nat := x ^^^ (2 ^ 32 - 1)

def shaCh (x y z : Nat) : Nat := (x &&& y) ^^^ (not32 x &&& z)

def shaMaj (x y z : Nat) : Nat := (x &&& y) ^^^ (x &&& z) ^^^ (y &&& z)

def shaBigSigma0 (x : Nat) : Nat := rotr32 x 2 ^^^ rotr32 x 13 ^^^ rotr32 x 22

def shaBigSigma1 (x : Nat) : Nat := rotr32 x 6 ^^^ rotr32 x 11 ^^^ rotr32 x 25

def shaSmallSigma0 (x : Nat) : Nat := rotr32 x 7 ^^^ rotr32 x 18 ^^^ (x >>> 3)

def shaSmallSigma1 (x : Nat) : Nat := rotr32 x 17 ^^^ rotr32 x 19 ^^^ (x >>> 10)

/-- The 64 round constant words of FIPS 180-4 section 4.2.2, in decimal. -/
def shaK : List Nat :=
  [1116352408, 1899447441, 3049323471, 3921009573, 961987163, 1508970993,
   2453635748, 2870763221, 3624381080, 310598401, 607225278, 1426881987,
   1925078388, 2162078206, 2614888103, 3248222580, 3835390401, 4022224774,
   264347078, 604807628, 770255983, 1249150122, 1555081692, 1996064986,
   2554220882, 2821834349, 2952996808, 3210313671, 3336571891, 3584528711,
   113926993, 338241895, 666307205, 773529912, 1294757372, 1396182291,
   1695183700, 1986661051, 2177026350, 2456956037, 2730485921, 2820302411,
   3259730800, 3345764771, 3516065817, 3600352804, 4094571909, 275423344,
   430227734, 506948616, 659060556, 883997877, 958139571, 1322822218,
   1537002063, 1747873779, 1955562222, 2024104815, 2227730452, 2361852424,
   2428436474, 2756734187, 3204031479, 3329325298]

/-- The initial hash words of FIPS 180-4 section 5.3.3, in decimal. -/
def shaH0 : List Nat :=
  [1779033703, 3144134277, 1013904242, 2773480762, 1359893119, 2600822924,
   528734635, 1541459225]

/-- Big-endian 64-bit encoding of a message length in bits. -/
def be64 (n : Nat) : List Nat :=
  [(n >>> 56) % 256, (n >>> 48) % 256, (n >>> 40) % 256, (n >>> 32) % 256,
   (n >>> 24) % 256, (n >>> 16) % 256, (n >>> 8) % 256, n % 256]

/-- SHA-256 padding: append 0x80, zeros, and the 64-bit bit length. -/
def shaPad (msg : List Nat) : List Nat :=
  msg ++ 0x80 :: List.replicate ((64 - (msg.length + 9) % 64) % 64) 0 ++ be64 (8 * msg.length)

/-- Split a list into chunks of 64 elements.  The structural fuel bounds
the number of chunks; it never runs out since each step drops at least
one element. -/
def chunks64F : Nat → List Nat → List (List Nat)
  | _, [] => []
  | 0, _ :: _ => []
  | fuel + 1, a :: l => ((a :: l).take 64) :: chunks64F fuel ((a :: l).drop 64)

def chunks64 (l : List Nat) : List (List Nat) := chunks64F l.length l

/-- Interpret four consecutive bytes as a big-endian 32-bit word. -/
def be32At (l : List Nat) (i : Nat) : Nat :=
  (l.getD i 0 <<< 24) + (l.getD (i + 1) 0 <<< 16) + (l.getD (i + 2) 0 <<< 8) + l.getD (i + 3) 0

/-- The first 16 words of the message schedule of one block. -/
def shaWords16 (block : List Nat) : List Nat :=
  (List.range 16).map (fun i => be32At block (4 * i))

/-- Extend the message schedule by `n` further words. -/
def shaExtend : List Nat → Nat → List Nat
  | w, 0 => w
  | w, n + 1 =>
    shaExtend
      (w ++ [add32 (add32 (shaSmallSigma1 (w.getD (w.length - 2) 0)) (w.getD (w.length - 7) 0))
               (add32 (shaSmallSigma0 (w.getD (w.length - 15) 0)) (w.getD (w.length - 16) 0))]) n

/-- One SHA-256 compression round. The state is the eight words a..h. -/
def shaRound (st : List Nat) (kw : Nat × Nat) : List Nat :=
  let a := st.getD 0 0
  let b := st.getD 1 0
  let c := st.getD 2 0
  let d := st.getD 3 0
  let e := st.getD 4 0
  let f := st.getD 5 0
  let g := st.getD 6 0
  let h := st.getD 7 0
  let t1 := add32 h (add32 (shaBigSigma1 e) (add32 (shaCh e f g) (add32 kw.1 kw.2)))
  let t2 := add32 (shaBigSigma0 a) (shaMaj a b c)
  [add32 t1 t2, a, b, c, add32 d t1, e, f, g]

/-- Compress one 64-byte block into the running hash state. -/
def shaCompress (st : List Nat) (block : List Nat) : List Nat :=
  let w := shaExtend (shaWords16 block) 48
  let st2 := (shaK.zip w).foldl shaRound st
  List.zipWith add32 st st2

/-- Serialize a 32-bit word as four big-endian bytes. -/
def be32Bytes (w : Nat) : List Nat :=
  [(w >>> 24) % 256, (w >>> 16) % 256, (w >>> 8) % 256, w % 256]

/-- The SHA-256 digest (32 bytes) of a byte sequence. -/
def sha256 (msg : List Nat) : List Nat :=
  ((chunks64 (shaPad msg)).foldl shaCompress shaH0).flatMap be32Bytes

/-! ## Storage abstraction (`src/storage/src/lib.rs`) -/

namespace storage

/-- Storage error type, `storage::Error`. -/
inductive Error where
  | NotAligned
  | OutOfBounds
  | NotWritten
  | NotErased
deriving DecidableEq, Repr

/-- Argument checks shared by read and write, `storage::check_slice`.
Rust evaluates the bounds test before the alignment test; with
`align = 0` the `%` operation panics, modelled by `none`. -/
def check_slice (align capacity offset length : Nat) : Option (Except Error Unit) :=
  if length > capacity ∨ offset > capacity - length then some (.error .OutOfBounds)
  else if align = 0 then none
  else if offset % align ≠ 0 ∨ length % align ≠ 0 then some (.error .NotAligned)
  else some (.ok ())

/-- Erase argument checks, `storage::check_erase`. -/
def check_erase (erase_size capacity from_ to_ : Nat) : Option (Except Error Unit) :=
  if from_ > to_ ∨ to_ > capacity then some (.error .OutOfBounds)
  else if erase_size = 0 then none
  else if from_ % erase_size ≠ 0 ∨ to_ % erase_size ≠ 0 then some (.error .NotAligned)
  else some (.ok ())

end storage

/-! ## The NOR flash simulator (`src/simflash/src/lib.rs`) -/

/-- Per-write-unit state of the simulated flash. -/
inductive PageState where
  | Erased
  | Written
  | Unknown
deriving DecidableEq, Repr

/-- The simulated flash device.  `data` and `pageState` model the Rust
vectors as total functions with explicit lengths `capacity` and
`numPages`. -/
structure SimFlash where
  read_size : Nat
  write_size : Nat
  erase_size : Nat
  capacity : Nat
  numPages : Nat
  data : Nat → Nat
  pageState : Nat → PageState

namespace SimFlash

/-- What page contains the given byte offset, `SimFlash::page_of`. -/
def page_of (f : SimFlash) (offset : Nat) : Nat := offset / f.write_size

/-- The pages affected by the byte range given, `SimFlash::pages`.
Rust computes the range from `page_of(from)` to `page_of(to - 1) + 1`;
this formula is only consulted with `to` at least 1 (the zero case
panics and is modelled by the callers returning `none` first). -/
def pageRange (write_size from_ to_ : Nat) : List Nat :=
  List.range' (from_ / write_size) ((to_ - 1) / write_size + 1 - from_ / write_size)

def pages (f : SimFlash) (from_ to_ : Nat) : List Nat :=
  pageRange f.write_size from_ to_

def pages_per_sector (f : SimFlash) : Nat := f.erase_size / f.write_size

/-- `SimFlash::new`.  The two `assert!`s panic (`none`) on bad geometry;
with `write_size = 0` the `%` itself panics. -/
def new (read_size write_size erase_size sectors : Nat) : Option SimFlash :=
  if ¬ write_size ≤ erase_size then none
  else if write_size = 0 then none
  else if erase_size % write_size ≠ 0 then none
  else some
    { read_size := read_size
      write_size := write_size
      erase_size := erase_size
      capacity := sectors * erase_size
      numPages := sectors * (erase_size / write_size)
      data := fun _ => 0xff
      pageState := fun _ => .Unknown }

/-- `storage::check_read` instantiated at the simulator. -/
def check_read (f : SimFlash) (offset length : Nat) : Option (Except storage.Error Unit) :=
  storage.check_slice f.read_size f.capacity offset length

/-- `storage::check_write` instantiated at the simulator. -/
def check_write (f : SimFlash) (offset length : Nat) : Option (Except storage.Error Unit) :=
  storage.check_slice f.write_size f.capacity offset length

/-- `SimFlash::read`.  Returns the bytes read in place of filling a
caller-supplied buffer of the same length. -/
def read (f : SimFlash) (offset len : Nat) : Option (Except storage.Error (List Nat)) :=
  match check_read f offset len with
  | none => none
  | some (.error e) => some (.error e)
  | some (.ok _) =>
    if offset + len = 0 then none
    else if ∀ p ∈ f.pages offset (offset + len), f.pageState p = .Written then
      some (.ok ((List.range len).map (fun i => f.data (offset + i))))
    else some (.error .NotWritten)

/-- `SimFlash::erase`. -/
def erase (f : SimFlash) (from_ to_ : Nat) : Option (Except storage.Error Unit × SimFlash) :=
  match storage.check_erase f.erase_size f.capacity from_ to_ with
  | none => none
  | some (.error e) => some (.error e, f)
  | some (.ok _) =>
    if to_ = 0 then none
    else some (.ok (),
      { f with pageState := fun p => if p ∈ f.pages from_ to_ then .Erased else f.pageState p })

/-- `SimFlash::write`. -/
def write (f : SimFlash) (offset : Nat) (bytes : List Nat) : Option (Except storage.Error Unit × SimFlash) :=
  match check_write f offset bytes.length with
  | none => none
  | some (.error e) => some (.error e, f)
  | some (.ok _) =>
    if offset + bytes.length = 0 then none
    else if ∀ p ∈ f.pages offset (offset + bytes.length), f.pageState p = .Erased then
      some (.ok (),
        { f with
          pageState := fun p => if p ∈ f.pages offset (offset + bytes.length) then .Written else f.pageState p
          data := fun x => if offset ≤ x ∧ x < offset + bytes.length then bytes.getD (x - offset) 0 else f.data x })
    else some (.error .NotErased, f)

/-- The padded write-unit buffer `install` fills for each step: the next
`write_size` bytes of the image starting at `pos`, padded with `0xFF`. -/
def installBuf (bytes : List Nat) (pos write_size : Nat) : List Nat :=
  (List.range write_size).map (fun i => if pos + i < bytes.length then bytes.getD (pos + i) 0 else 0xff)

/-- The loop of `SimFlash::install`.  `ws` is `self.write_size`, which
`erase` and `write` never change; it is passed separately so that the
step `pos += self.write_size` is visibly constant.  `none` models a
panic, or divergence when `ws = 0`.  The structural fuel
`bytes.length` bounds the iteration count and never runs out, since
`pos` advances by `ws` which is at least 1. -/
def installLoopF (ws : Nat) (bytes : List Nat) (offset : Nat) :
    Nat → SimFlash → Nat → Nat → Option (Except storage.Error Unit × SimFlash)
  | 0, f, lastErased, pos => if pos < bytes.length then none else some (.ok (), f)
  | fuel + 1, f, lastErased, pos =>
  if pos < bytes.length then
    if ws = 0 then none
    else
      let dev_pos := pos + offset
      let dev_sector := dev_pos / f.erase_size
      let afterErase : Option (Except storage.Error Unit × SimFlash × Nat) :=
        if dev_sector ≠ lastErased then
          match f.erase (dev_sector * f.erase_size) (dev_sector * f.erase_size + 1) with
          | none => none
          | some (.error e, f2) => some (.error e, f2, dev_sector)
          | some (.ok _, f2) => some (.ok (), f2, dev_sector)
        else some (.ok (), f, lastErased)
      match afterErase with
      | none => none
      | some (.error e, f2, _) => some (.error e, f2)
      | some (.ok _, f2, le2) =>
        match f2.write dev_pos (installBuf bytes pos ws) with
        | none => none
        | some (.error e, f3) => some (.error e, f3)
        | some (.ok _, f3) => installLoopF ws bytes offset fuel f3 le2 (pos + ws)
  else some (.ok (), f)

/-- `SimFlash::install`.  The initial `assert_eq!` on the offset panics
(`none`) when the offset is not erase-aligned (or `erase_size = 0`). -/
def install (f : SimFlash) (bytes : List Nat) (offset : Nat) :
    Option (Except storage.Error Unit × SimFlash) :=
  if f.erase_size = 0 then none
  else if offset % f.erase_size ≠ 0 then none
  else installLoopF f.write_size bytes offset bytes.length f (f.numPages / f.pages_per_sector) 0

end SimFlash

/-! ## Boot image parsing and validation (`src/boot/src/image.rs`) -/

namespace boot

/-- The boot crate error type, `boot::Error` in `src/boot/src/lib.rs`. -/
inductive Error where
  | Flash (e : storage.Error)
  | InvalidImage
  | CannotUpgrade
deriving DecidableEq, Repr

/-- `image::IMAGE_MAGIC`. -/
def IMAGE_MAGIC : Nat := 0x96f3b83d

/-- `image::TLV_INFO_MAGIC`. -/
def TLV_INFO_MAGIC : Nat := 0x6907

/-- `image::TLV_SHA256`. -/
def TLV_SHA256 : Nat := 0x10

/-- The `usize` overflow bound of the 64-bit host the simulator runs on. -/
def usizeBound : Nat := 2 ^ 64

/-- Little-endian 16-bit field at byte index `i` (the structs are
`repr(C)` with little-endian on-wire layout, read via `as_mut_raw`). -/
def le16 (l : List Nat) (i : Nat) : Nat :=
  l.getD i 0 + 256 * l.getD (i + 1) 0

/-- Little-endian 32-bit field at byte index `i`. -/
def le32 (l : List Nat) (i : Nat) : Nat :=
  l.getD i 0 + 256 * l.getD (i + 1) 0 + 65536 * l.getD (i + 2) 0 + 16777216 * l.getD (i + 3) 0

/-- `image::ImageVersion`. -/
structure ImageVersion where
  major : Nat
  minor : Nat
  revision : Nat
  build_num : Nat
deriving DecidableEq, Repr

/-- `image::ImageHeader`: the fixed 32-byte header at offset 0. -/
structure ImageHeader where
  magic : Nat
  load_addr : Nat
  hdr_size : Nat
  protected_tlv_size : Nat
  img_size : Nat
  flags : Nat
  version : ImageVersion
  pad1 : Nat
deriving DecidableEq, Repr

/-- Decode the 32 header bytes read by `as_mut_raw` into the struct. -/
def parseHeader (b : List Nat) : ImageHeader :=
  { magic := le32 b 0
    load_addr := le32 b 4
    hdr_size := le16 b 8
    protected_tlv_size := le16 b 10
    img_size := le32 b 12
    flags := le32 b 16
    version := { major := b.getD 20 0, minor := b.getD 21 0, revision := le16 b 22, build_num := le32 b 24 }
    pad1 := le32 b 28 }

/-- An `Image` bound to a flash; the model passes the flash explicitly
to each method rather than storing the `RefCell` reference. -/
structure Image where
  header : ImageHeader
  tlv_base : Nat
  tlv_size : Nat
deriving DecidableEq, Repr

/-- The TLV walk in `Image::from_flash` (`while pos < info.len`): reads
each 4-byte `TlvEntry` header and advances `pos` by `4 + entry.len`.
The additions `tlv_base + pos` and `pos + 4 + len` are unchecked in
Rust; exceeding `usize` is a (debug) panic, modelled by `none`.  The
structural fuel bounds the iteration count; since the cursor advances
by at least 4 each step, a fuel of `limit` never runs out. -/
def walkEntriesF (f : SimFlash) (tlv_base limit : Nat) : Nat → Nat → Option (Except Error Unit)
  | 0, pos => if pos < limit then none else some (.ok ())
  | fuel + 1, pos =>
    if pos < limit then
      if tlv_base + pos ≥ usizeBound then none
      else
        match f.read (tlv_base + pos) 4 with
        | none => none
        | some (.error e) => some (.error (.Flash e))
        | some (.ok eb) =>
          if pos + 4 + le16 eb 2 ≥ usizeBound then none
          else walkEntriesF f tlv_base limit fuel (pos + 4 + le16 eb 2)
    else some (.ok ())

def walkEntries (f : SimFlash) (tlv_base limit pos : Nat) : Option (Except Error Unit) :=
  walkEntriesF f tlv_base limit limit pos

/-- `Image::from_flash`. -/
def Image.from_flash (f : SimFlash) : Option (Except Error Image) :=
  match f.read 0 32 with
  | none => none
  | some (.error e) => some (.error (.Flash e))
  | some (.ok hb) =>
    let header := parseHeader hb
    if header.magic ≠ IMAGE_MAGIC then some (.error .InvalidImage)
    else if header.img_size + header.hdr_size ≥ usizeBound then some (.error .InvalidImage)
    else
      let tlv_base := header.img_size + header.hdr_size
      match f.read tlv_base 4 with
      | none => none
      | some (.error e) => some (.error (.Flash e))
      | some (.ok ib) =>
        if le16 ib 0 ≠ TLV_INFO_MAGIC then some (.error .InvalidImage)
        else
          let tlv_size := le16 ib 2
          match walkEntries f tlv_base (le16 ib 2) 4 with
          | none => none
          | some (.error e) => some (.error e)
          | some (.ok _) => some (.ok { header := header, tlv_base := tlv_base, tlv_size := tlv_size })

/-- `Image::full_image_size`. -/
def Image.full_image_size (img : Image) : Nat := img.tlv_base + img.tlv_size

/-- The chunked reads of `Image::calculate_sha256`: stream the range
`[pos, tlv_base)` in chunks of at most 128 bytes, feeding an incremental
hasher.  The hasher state is modelled by the bytes absorbed so far; the
final digest is `sha256` of all of them.  The addition `pos += todo`
cannot exceed `tlv_base` and is modelled as plain addition. -/
def shaReadLoopF (f : SimFlash) (tlv_base : Nat) : Nat → Nat → List Nat → Option (Except Error (List Nat))
  | 0, pos, acc => if pos < tlv_base then none else some (.ok acc)
  | fuel + 1, pos, acc =>
    if pos < tlv_base then
      let todo := min (tlv_base - pos) 128
      match f.read pos todo with
      | none => none
      | some (.error e) => some (.error (.Flash e))
      | some (.ok chunk) => shaReadLoopF f tlv_base fuel (pos + todo) (acc ++ chunk)
    else some (.ok acc)

/-- `Image::calculate_sha256`.  The structural fuel `tlv_base` bounds
the chunk count and never runs out (each chunk is at least one byte). -/
def Image.calculate_sha256 (img : Image) (f : SimFlash) : Option (Except Error (List Nat)) :=
  match shaReadLoopF f img.tlv_base img.tlv_base 0 [] with
  | none => none
  | some (.error e) => some (.error e)
  | some (.ok msg) => some (.ok (sha256 msg))

/-- The loop of `Image::validate` over the `TlvIter` sequence.  `posVar`
models the iterator's `self.pos` cursor.  Note the source stores the
absolute `data_pos + entry.len` into the cursor that is compared against
the relative `limit` (TlvIter::next), so after the first entry the
cursor usually exceeds `limit` and iteration stops.  The iterator's
`checked_add` failures surface as `InvalidImage`. -/
def validateLoopF (img : Image) (f : SimFlash) (limit : Nat) :
    Nat → Nat → Bool → Option (Except Error Unit)
  | 0, posVar, seen_sha =>
    if posVar < limit then none
    else if seen_sha then some (.ok ()) else some (.error .InvalidImage)
  | fuel + 1, posVar, seen_sha =>
  if posVar < limit then
    if hov : img.tlv_base + posVar ≥ usizeBound then some (.error .InvalidImage)
    else
      match f.read (img.tlv_base + posVar) 4 with
      | none => none
      | some (.error e) => some (.error (.Flash e))
      | some (.ok eb) =>
        let kind := le16 eb 0
        let len := le16 eb 2
        if img.tlv_base + posVar + 4 ≥ usizeBound then some (.error .InvalidImage)
        else
          let data_pos := img.tlv_base + posVar + 4
          if data_pos + len ≥ usizeBound then some (.error .InvalidImage)
          else
            if kind = TLV_SHA256 then
              if seen_sha then some (.error .InvalidImage)
              else
                if len ≠ 32 then some (.error .InvalidImage)
                else
                  match f.read data_pos 32 with
                  | none => none
                  | some (.error e) => some (.error (.Flash e))
                  | some (.ok hash) =>
                    match img.calculate_sha256 f with
                    | none => none
                    | some (.error e) => some (.error e)
                    | some (.ok image_hash) =>
                      if hash ≠ image_hash then some (.error .InvalidImage)
                      else validateLoopF img f limit fuel (data_pos + len) true
            else some (.error .InvalidImage)
  else if seen_sha then some (.ok ()) else some (.error .InvalidImage)

/-- The iteration of `Image::validate` with fuel `limit`, which never
runs out since the cursor advances by at least 4 per entry. -/
def validateLoop (img : Image) (f : SimFlash) (limit posVar : Nat) (seen_sha : Bool) :
    Option (Except Error Unit) :=
  validateLoopF img f limit limit posVar seen_sha

/-- `Image::validate`.  `Image::tlvs` first re-reads the `TlvInfo` at
`tlv_base` and re-checks its magic; the resulting iterator starts at
cursor 4 with `limit = info.len`. -/
def Image.validate (img : Image) (f : SimFlash) : Option (Except Error Unit) :=
  match f.read img.tlv_base 4 with
  | none => none
  | some (.error e) => some (.error (.Flash e))
  | some (.ok ib) =>
    if le16 ib 0 ≠ TLV_INFO_MAGIC then some (.error .InvalidImage)
    else validateLoop img f (le16 ib 2) 4 false

end boot

/-! ## Upgrade status layout (`src/boot/src/status.rs`) -/

namespace boot

/-- Constants from `status.rs` module `sizes`. -/
def MAX_IMAGE : Nat := 1024 * 1024

def SMALLEST_PAGED_SECTOR : Nat := 512

def SMALLEST_SECTOR : Nat := 4096

/-- Rust `usize::div_ceil`. -/
def divCeil (a b : Nat) : Nat := (a + b - 1) / b

def PAGED_HASHES : Nat := divCeil MAX_IMAGE SMALLEST_PAGED_SECTOR

def OVERWRITE_HASHES : Nat := divCeil MAX_IMAGE SMALLEST_SECTOR

def MAX_PAGED_HASH_SECTORS : Nat := divCeil (PAGED_HASHES + PAGED_HASHES) SMALLEST_PAGED_SECTOR

def MAX_OVERWRITE_HASH_SECTORS : Nat := divCeil (OVERWRITE_HASHES + OVERWRITE_HASHES) SMALLEST_SECTOR

def MAX_HASH_SECTORS : Nat :=
  if MAX_PAGED_HASH_SECTORS > MAX_OVERWRITE_HASH_SECTORS then MAX_PAGED_HASH_SECTORS
  else MAX_OVERWRITE_HASH_SECTORS

/-- Size in bytes of the `repr(C)` `StatusTail` record: 16 + 4 + 4 + 4
+ 1 + 1 + 1 + 1 + 16. -/
def STATUS_TAIL_SIZE : Nat := 48

/-- `status::StatusStyle`. -/
inductive StatusStyle where
  | Paged
  | OverWrite
deriving DecidableEq, Repr

/-- `status::SlotInfo`. -/
structure SlotInfo where
  write_size : Nat
  erase_size : Nat
  capacity : Nat
  image_size : Nat
deriving DecidableEq, Repr

/-- Rust `usize::is_power_of_two` (count of one bits equals one). -/
def is_power_of_two (n : Nat) : Bool := n ≠ 0 && n &&& (n - 1) = 0

/-- `SlotInfo::status_style`; the final `panic!` for unsupported
geometry is modelled by `none`. -/
def SlotInfo.status_style (self : SlotInfo) : Option StatusStyle :=
  if self.write_size ≤ 32 then some .OverWrite
  else if self.erase_size ≤ 4096 then some .Paged
  else none

/-- `status::StatusLayout`. -/
structure StatusLayout where
  style : StatusStyle
  erase_size : Nat
  write_size : Nat
  image_sectors : Nat × Nat
  tail_pos : Nat
  flags : Option (Nat × Nat × Nat)
  inline_hashes : Nat
  hash_pages : List Nat
deriving DecidableEq, Repr

/-- The `StatusStyle::OverWrite` block of `status_layout`: round `pos`
down to a write boundary (`pos & !(write_size - 1)`, rendered for the
64-bit `usize` as a mask against `2^64 - write_size`) and carve out the
three flag slots.  The three `pos -= write_size` steps underflow-panic
(`none`) in a debug build when the sector is too small. -/
def overwriteFlags (tail_pos write_size : Nat) : Option (Nat × Nat × Nat) :=
  let pos := tail_pos &&& (usizeBound - write_size)
  if pos < write_size then none
  else
    let move_done_flag := pos - write_size
    if move_done_flag < write_size then none
    else
      let copy_done_flag := move_done_flag - write_size
      if copy_done_flag < write_size then none
      else some (move_done_flag, copy_done_flag, copy_done_flag - write_size)

/-- The `while count > 0` loop of `status_layout` filling `hash_pages`.
The `heapless::Vec` has capacity `MAX_HASH_SECTORS`; `push(..).unwrap()`
past it panics (`none`), as does the degenerate `erase_size / 4 = 0`
case (which would push zeros until the vector overflows).  `fuel`
starts at `count`; since every iteration removes at least one hash it
never runs out on inputs where Rust terminates normally. -/
def hashPagesLoop : Nat → Nat → Nat → Nat → Option (List Nat)
  | _, _, 0, _ => some []
  | 0, _, _ + 1, _ => none
  | fuel + 1, quarter, count + 1, pushes =>
    if quarter = 0 then none
    else if pushes = MAX_HASH_SECTORS then none
    else
      let n := min quarter (count + 1)
      (hashPagesLoop fuel quarter (count + 1 - n) (pushes + 1)).map (fun rest => n :: rest)

/-- The tail of `status_layout` after the style split: inline hashes
capped at the total, then additional whole sectors of hashes. -/
def statusFinish (style : StatusStyle) (erase_size write_size : Nat)
    (image_sectors : Nat × Nat) (tail_pos : Nat) (flags : Option (Nat × Nat × Nat))
    (pos : Nat) : Option StatusLayout :=
  let end_hashes := pos
  let pos2 := pos &&& (usizeBound - erase_size)
  let total_image_sectors := image_sectors.1 + image_sectors.2
  let inline_hashes := min ((end_hashes - pos2) / 4) total_image_sectors
  match hashPagesLoop (total_image_sectors - inline_hashes) (erase_size / 4)
      (total_image_sectors - inline_hashes) 0 with
  | none => none
  | some hash_pages =>
    some { style := style, erase_size := erase_size, write_size := write_size,
           image_sectors := image_sectors, tail_pos := tail_pos, flags := flags,
           inline_hashes := inline_hashes, hash_pages := hash_pages }

/-- `SlotInfo::status_layout`.  The two `assert!`s and the possible
panics inside are modelled by `none`. -/
def SlotInfo.status_layout (self upgrade : SlotInfo) : Option StatusLayout :=
  let erase_size := max self.erase_size upgrade.erase_size
  if ¬ is_power_of_two self.erase_size then none
  else if ¬ is_power_of_two self.write_size then none
  else
    let image_sectors := (divCeil self.image_size erase_size, divCeil upgrade.image_size erase_size)
    match self.status_style with
    | none => none
    | some style =>
      if erase_size < STATUS_TAIL_SIZE then none
      else
        let tail_pos := erase_size - STATUS_TAIL_SIZE
        match style with
        | .OverWrite =>
          match overwriteFlags tail_pos self.write_size with
          | none => none
          | some fl =>
            statusFinish .OverWrite erase_size self.write_size image_sectors tail_pos (some fl) fl.2.2
        | .Paged =>
          statusFinish .Paged erase_size self.write_size image_sectors tail_pos none tail_pos

/-- The flash address of the status tail used by `StatusLayout::read`:
the last erase unit of the device plus `tail_pos`.  This formula is
only consulted once `StatusLayout.read` has excluded the case
`capacity / erase_size = 0`, where the Rust subtraction `- 1`
underflow-panics in a debug build (and where `erase_size = 0` makes
the division itself panic). -/
def tailAddr (l : StatusLayout) (f : SimFlash) : Nat :=
  (f.capacity / f.erase_size - 1) * f.erase_size + l.tail_pos

/-- `StatusLayout::read`: reads the `StatusTail` record at the end of
the device, propagating any flash error, and currently discards the
tail and returns unit.  On a device with no erase units
(`capacity / erase_size = 0`, including `erase_size = 0`) the address
computation panics before any read, modelled by `none`. -/
def StatusLayout.read (l : StatusLayout) (f : SimFlash) : Option (Except Error Unit) :=
  if f.capacity / f.erase_size = 0 then none
  else
    match f.read (tailAddr l f) STATUS_TAIL_SIZE with
    | none => none
    | some (.error e) => some (.error (.Flash e))
    | some (.ok _) => some (.ok ())

end boot

/-! ## Traces of simulator operations (for the read-after-write property) -/

/-- A mutating simulator call. -/
inductive Op where
  | eraseOp (from_ to_ : Nat)
  | writeOp (offset : Nat) (bytes : List Nat)

/-- Execute one call on the simulator state. -/
def stepOp (f : SimFlash) (op : Op) : Option (Except storage.Error Unit × SimFlash) :=
  match op with
  | .eraseOp a b => f.erase a b
  | .writeOp off bs => f.write off bs

/-- Run a sequence of calls; `some` exactly when every call returns `Ok`
(a call that fails or panics makes the whole sequence illegal). -/
def runOps (f : SimFlash) : List Op → Option SimFlash
  | [] => some f
  | op :: ops =>
    match stepOp f op with
    | some (.ok _, f2) => runOps f2 ops
    | _ => none

/-- Build a fresh simulator and run a sequence of calls on it. -/
def simRun (read_size write_size erase_size sectors : Nat) (ops : List Op) : Option SimFlash :=
  (SimFlash.new read_size write_size erase_size sectors).bind (fun f => runOps f ops)

/-- Reference value of a byte address: never touched, erased since the
last write, or holding the last byte written. -/
inductive RefVal where
  | unknown
  | erased
  | written (b : Nat)
deriving DecidableEq, Repr

/-- Reference semantics of one call: an erase marks its byte range
erased, a write records the bytes written. -/
def refStep (r : Nat → RefVal) : Op → Nat → RefVal
  | .eraseOp a b => fun x => if a ≤ x ∧ x < b then .erased else r x
  | .writeOp off bs => fun x => if off ≤ x ∧ x < off + bs.length then .written (bs.getD (x - off) 0) else r x

/-- Reference semantics of a call sequence executed left to right,
starting from the reference state `r`. -/
def refRun (r : Nat → RefVal) : List Op → Nat → RefVal
  | [] => r
  | op :: ops => refRun (refStep r op) ops

/-- The all-unknown reference state of a fresh device. -/
def refInit : Nat → RefVal := fun _ => .unknown

/-- What the specification says a successful read must return at one
address: the last byte written, or `0xFF` for an address erased and not
written since; `none` when the address was never erased nor written. -/
def lastByte (r : Nat → RefVal) (x : Nat) : Option Nat :=
  match r x with
  | .unknown => none
  | .erased => some 0xff
  | .written b => some b

/-! ## Concrete flash states used by the individual claims -/

/-- A simulator state whose first bytes hold the given list (the rest
erased to `0xFF`) and whose first `writtenPages` pages are `Written`. -/
def flashOfBytes (read_size write_size erase_size capacity numPages : Nat)
    (bytes : List Nat) (writtenPages : Nat) : SimFlash :=
  { read_size := read_size, write_size := write_size, erase_size := erase_size,
    capacity := capacity, numPages := numPages,
    data := fun x => if x < bytes.length then bytes.getD x 0 else 0xff,
    pageState := fun p => if p < writtenPages then .Written else .Unknown }

/-- A valid 32-byte image header: magic `0x96f3b83d`, `hdr_size = 32`,
`img_size = 16`, all other fields zero (little-endian bytes). -/
def c2header : List Nat :=
  [0x3d, 0xb8, 0xf3, 0x96,  0, 0, 0, 0,  0x20, 0,  0, 0,  0x10, 0, 0, 0,
   0, 0, 0, 0,  0, 0, 0, 0, 0, 0, 0, 0,  0, 0, 0, 0]

/-- The 16 image body bytes following the header padding. -/
def c2body : List Nat := [1, 2, 3, 4, 5, 6, 7, 8, 9, 10, 11, 12, 13, 14, 15, 16]

/-- The SHA-256 digest of `c2header ++ c2body` (48 bytes). -/
def c2digest : List Nat :=
  [0xdf, 0x36, 0xd8, 0x42, 0x0b, 0xf3, 0x46, 0xed, 0xd9, 0xd3, 0x1e, 0x4f, 0xf6, 0x32, 0x94, 0x68,
   0xf5, 0x10, 0x74, 0xa1, 0xdb, 0x0d, 0x4f, 0x32, 0x74, 0xe6, 0x8a, 0x1d, 0xfb, 0xbe, 0x23, 0x96]

/-- An image whose TLV region (`len = 76`) contains TWO SHA-256 entries:
the first with the correct digest, the second a duplicate. -/
def c2bytes : List Nat :=
  c2header ++ c2body ++ [0x07, 0x69, 76, 0] ++ [0x10, 0, 32, 0] ++ c2digest
    ++ [0x10, 0, 32, 0] ++ List.replicate 32 0

/-- The duplicate-SHA image installed on a small byte-granular flash. -/
def c2flash : SimFlash := flashOfBytes 1 1 1 128 128 c2bytes 124

/-- The image value `from_flash` produces for `c2flash`. -/
def c2image : boot.Image := { header := boot.parseHeader c2header, tlv_base := 48, tlv_size := 76 }

/-- A header claiming `img_size = u32::MAX` (bytes 12..16 all `0xFF`). -/
def c4bytes : List Nat :=
  [0x3d, 0xb8, 0xf3, 0x96,  0, 0, 0, 0,  0x20, 0,  0, 0,  0xff, 0xff, 0xff, 0xff,
   0, 0, 0, 0,  0, 0, 0, 0, 0, 0, 0, 0,  0, 0, 0, 0]

/-- The `u32::MAX` image header on a 128-byte flash. -/
def c4flash : SimFlash := flashOfBytes 1 1 1 128 128 c4bytes 32

/-- A valid header (`img_size = 0`) and valid `TlvInfo` claiming a
12-byte TLV region, but nothing written beyond byte 36: the TLV entry
walk of `from_flash` must read the entry header at offset 36. -/
def c8bytes : List Nat :=
  [0x3d, 0xb8, 0xf3, 0x96,  0, 0, 0, 0,  0x20, 0,  0, 0,  0, 0, 0, 0,
   0, 0, 0, 0,  0, 0, 0, 0, 0, 0, 0, 0,  0, 0, 0, 0] ++ [0x07, 0x69, 12, 0]

def c8flash : SimFlash := flashOfBytes 1 1 1 128 128 c8bytes 36

/-- The same header and `TlvInfo`, with the TLV entry present and fully
written; the single entry has the unrecognized kind `0x99`. -/
def c8good : List Nat := c8bytes ++ [0x99, 0, 4, 0] ++ [1, 2, 3, 4]

def c8goodflash : SimFlash := flashOfBytes 1 1 1 128 128 c8good 44

/-- An overwrite-style slot: STM32-like geometry, small image. -/
def ovSlot : boot.SlotInfo :=
  { write_size := 8, erase_size := 4096, capacity := 131072, image_size := 5000 }

/-- The layout `status_layout` computes for a pair of `ovSlot`s. -/
def ovLayout : boot.StatusLayout :=
  { style := .OverWrite, erase_size := 4096, write_size := 8, image_sectors := (2, 2),
    tail_pos := 4048, flags := some (4040, 4032, 4024), inline_hashes := 4, hash_pages := [] }

/-- A paged-style slot: LPC55-like geometry, 71842-byte image. -/
def pgSlot : boot.SlotInfo :=
  { write_size := 512, erase_size := 512, capacity := 131072, image_size := 71842 }

/-- The layout `status_layout` computes for a pair of `pgSlot`s. -/
def pgLayout : boot.StatusLayout :=
  { style := .Paged, erase_size := 512, write_size := 512, image_sectors := (141, 141),
    tail_pos := 464, flags := none, inline_hashes := 116, hash_pages := [128, 38] }

/-- A fresh (never written) simulated flash with the `ovSlot` geometry:
32 sectors of 4 KiB, write unit 8. -/
def c9flash : SimFlash :=
  { read_size := 1, write_size := 8, erase_size := 4096, capacity := 131072,
    numPages := 16384, data := fun _ => 0xff, pageState := fun _ => .Unknown }

/-- A flash state for the failed-write claim: pages 0 and 1 erased,
page 2 written, write unit 4, erase unit 8, 16 bytes capacity. -/
def c10flash : SimFlash :=
  { read_size := 1, write_size := 4, erase_size := 8, capacity := 16, numPages := 4,
    data := fun _ => 0xff,
    pageState := fun p => if p < 2 then .Erased else if p = 2 then .Written else .Unknown }

/-! ## Helper lemmas -/

/-- Indexing a map over `List.range` below the length. -/
theorem getD_map_range (g : Nat → Nat) (len i : Nat) (h : i < len) :
    ((List.range len).map g).getD i 0 = g i := by
  rw [List.getD_eq_getElem?_getD, List.getElem?_map, List.getElem?_range h]
  rfl

/-- Every element of a successful read is a data byte of the flash. -/
theorem read_ok_elim (f : SimFlash) (off len : Nat) (r : List Nat)
    (h : f.read off len = some (.ok r)) :
    (∀ p ∈ f.pages off (off + len), f.pageState p = .Written)
      ∧ r = (List.range len).map (fun j => f.data (off + j)) := by
  unfold SimFlash.read at h
  split at h
  · exact absurd h (by simp)
  · exact absurd h (by simp)
  · split at h
    · exact absurd h (by simp)
    · split at h
      · refine ⟨by assumption, ?_⟩
        simp only [Option.some.injEq, Except.ok.injEq] at h
        exact h.symm
      · exact absurd h (by simp)

/-- The slice check only panics when the alignment is zero. -/
theorem check_slice_ne_none (align cap off len : Nat) (h : align ≠ 0) :
    storage.check_slice align cap off len ≠ none := by
  unfold storage.check_slice
  by_cases h1 : len > cap ∨ off > cap - len
  · simp [h1]
  · by_cases h2 : off % align ≠ 0 ∨ len % align ≠ 0
    · simp [h1, h, h2]
    · simp [h1, h, h2]

/-- A read of a positive length on a device with a nonzero read size
never panics. -/
theorem read_ne_none (f : SimFlash) (off len : Nat)
    (hrs : f.read_size ≠ 0) (hlen : len ≠ 0) : f.read off len ≠ none := by
  cases hc : f.check_read off len with
  | none => exact absurd hc (check_slice_ne_none _ _ _ _ hrs)
  | some r =>
    cases r with
    | error e => simp [SimFlash.read, hc]
    | ok u =>
      simp only [SimFlash.read, hc]
      rw [if_neg (by omega)]
      split <;> simp

/-- Bytes returned by a read are bytes stored in the flash. -/
theorem read_ok_bytes_lt (f : SimFlash) (off len : Nat) (r : List Nat)
    (h : f.read off len = some (.ok r)) (hd : ∀ x, f.data x < 256) :
    ∀ b ∈ r, b < 256 := by
  intro b hb
  rcases read_ok_elim f off len r h with ⟨-, rfl⟩
  rcases List.mem_map.mp hb with ⟨j, -, rfl⟩
  exact hd _

/-- `getD` of a list of bytes is a byte. -/
theorem getD_lt_256 (l : List Nat) (i : Nat) (h : ∀ b ∈ l, b < 256) :
    l.getD i 0 < 256 := by
  rw [List.getD_eq_getElem?_getD]
  cases hi : l[i]? with
  | none => simp
  | some v =>
    have := List.getElem?_mem hi
    simpa using h v this

/-- A 16-bit little-endian field of a byte list is below 2^16. -/
theorem le16_lt (l : List Nat) (i : Nat) (h : ∀ b ∈ l, b < 256) :
    boot.le16 l i < 2 ^ 16 := by
  unfold boot.le16
  have h1 := getD_lt_256 l i h
  have h2 := getD_lt_256 l (i + 1) h
  omega

/-- A 32-bit little-endian field of a byte list is below 2^32. -/
theorem le32_lt (l : List Nat) (i : Nat) (h : ∀ b ∈ l, b < 256) :
    boot.le32 l i < 2 ^ 32 := by
  unfold boot.le32
  have h1 := getD_lt_256 l i h
  have h2 := getD_lt_256 l (i + 1) h
  have h3 := getD_lt_256 l (i + 2) h
  have h4 := getD_lt_256 l (i + 3) h
  omega

/-! ## Claim C1 -/

/-- Claim C1 (code bug evidence): installing a valid signed image at the
erase-aligned offset 0 of a fresh simulator with the paged LPC-style
geometry (read 1, write 512, erase 512, 256 sectors) does not succeed:
the first erase issued by `install` covers `[0, 0 * 512 + 1)`, whose end
is not erase-aligned, so `check_erase` rejects it with `NotAligned` and
`install` propagates the error.  The crate's own tests
(`boot/tests/image.rs`, `simflash/src/gen.rs`) unwrap this call. -/
theorem C1_install_always_not_aligned :
    ((SimFlash.new 1 512 512 256).bind
      (fun f => (f.install c2bytes 0).map Prod.fst)) = some (.error .NotAligned) := by
  decide

/-! ## Claim C2 -/

/-- Claim C2 (code bug evidence): `c2flash` holds an image whose declared
TLV region (relative length 76) contains two SHA-256 entries: a valid
one at relative offset 4 and a duplicate at relative offset 40 (absolute
88, shown by the third and fourth conjuncts).  `from_flash` succeeds and
`validate` returns `Ok` even though the spec requires `InvalidImage`
for a duplicate SHA entry: `TlvIter::next` stores the absolute payload
end into the cursor compared against the relative limit, so iteration
stops after the first entry. -/
theorem C2_validate_accepts_duplicate_sha :
    boot.Image.from_flash c2flash = some (.ok c2image)
    ∧ boot.Image.validate c2image c2flash = some (.ok ())
    ∧ c2flash.read 88 4 = some (.ok [0x10, 0, 32, 0])
    ∧ c2image.tlv_base + 40 = 88 ∧ 40 + 4 + 32 ≤ c2image.tlv_size := by
  refine ⟨by decide, by decide, by decide, by decide, by decide⟩

/-! ## Claim C10 -/

/-- Claim C10: whenever a simulator write returns an error, the flash
state is completely unchanged: `check_write` and the page-state scan
both run before any mutation, so every error path returns the original
state. -/
theorem C10_failed_write_leaves_state_unchanged (f : SimFlash) (off : Nat)
    (bytes : List Nat) (e : storage.Error)
    (h : (f.write off bytes).map Prod.fst = some (.error e)) :
    (f.write off bytes).map Prod.snd = some f := by
  unfold SimFlash.write at h ⊢
  cases hc : f.check_write off bytes.length with
  | none =>
    rw [hc] at h
    simp at h
  | some r =>
    rw [hc] at h
    cases r with
    | error e2 => simp
    | ok u =>
      by_cases h0 : off + bytes.length = 0
      · simp [h0] at h
      · by_cases hall : ∀ p ∈ f.pages off (off + bytes.length), f.pageState p = PageState.Erased
        · simp only [h0] at h
          rw [if_pos hall] at h
          simp at h
        · simp [h0, hall]

/-- Claim C10 witness: a write of 12 bytes at offset 0 of `c10flash`
spans pages 0, 1, 2; only page 2 (the last) is not erased.  The write
fails with `NotErased` and the state is returned unchanged. -/
theorem C10_witness :
    (SimFlash.write c10flash 0 [1, 2, 3, 4, 5, 6, 7, 8, 9, 10, 11, 12]).map Prod.fst
      = some (.error .NotErased)
    ∧ (SimFlash.write c10flash 0 [1, 2, 3, 4, 5, 6, 7, 8, 9, 10, 11, 12]).map Prod.snd
      = some c10flash :=
  ⟨rfl, C10_failed_write_leaves_state_unchanged c10flash 0
    [1, 2, 3, 4, 5, 6, 7, 8, 9, 10, 11, 12] .NotErased rfl⟩

/-! ## Claim C5 -/

/-- Claim C5 (amended): on a simulator built by `SimFlash::new`, a read
fails with `OutOfBounds` exactly when the requested range exits the
capacity, and with `NotAligned` exactly when the range is in bounds but
the offset or length is not a multiple of the read size; the bounds
check is evaluated before the alignment check, so an argument pair
violating both returns `OutOfBounds` (the original claim stated the
opposite order). -/
theorem C5_read_error_classification (rs ws es sec : Nat) (f : SimFlash)
    (hf : SimFlash.new rs ws es sec = some f) (hrs : 0 < rs) (off len : Nat) :
    (((SimFlash.new rs ws es sec).map (fun g => g.read off len)
        = some (some (.error .OutOfBounds))) ↔ off + len > sec * es)
    ∧ (((SimFlash.new rs ws es sec).map (fun g => g.read off len)
        = some (some (.error .NotAligned)))
      ↔ (off + len ≤ sec * es ∧ (off % rs ≠ 0 ∨ len % rs ≠ 0))) := by
  rw [hf]
  unfold SimFlash.new at hf
  split at hf
  · exact absurd hf (by simp)
  · split at hf
    · exact absurd hf (by simp)
    · split at hf
      · exact absurd hf (by simp)
      · injection hf with hf2
        subst hf2
        simp only [SimFlash.read, SimFlash.check_read, storage.check_slice, Option.map_some']
        by_cases hb : len > sec * es ∨ off > sec * es - len
        · rw [if_pos hb]
          constructor
          · constructor
            · intro _; omega
            · intro _; simp
          · constructor
            · intro hx
              exact absurd hx (by simp)
            · intro hx; omega
        · rw [if_neg hb, if_neg (by omega)]
          by_cases ha : off % rs ≠ 0 ∨ len % rs ≠ 0
          · rw [if_pos ha]
            constructor
            · constructor
              · intro hx
                exact absurd hx (by simp)
              · intro _; omega
            · constructor
              · intro _; omega
              · intro _; simp
          · rw [if_neg ha]
            by_cases h0 : off + len = 0
            · rw [if_pos h0]
              constructor
              · constructor
                · intro hx; exact absurd hx (by simp)
                · intro hx; omega
              · constructor
                · intro hx; exact absurd hx (by simp)
                · intro hx; omega
            · rw [if_neg h0]
              constructor
              · constructor
                · intro hx
                  split at hx <;> (try split at hx) <;> simp_all
                · intro hx; omega
              · constructor
                · intro hx
                  split at hx <;> (try split at hx) <;> simp_all
                · intro hx; omega

/-- Claim C5 witness: on a flash with read size 4 and capacity 8, the
pair `offset 9, length 3` is both misaligned and out of bounds; the
result is `OutOfBounds`. -/
theorem C5_witness :
    (((SimFlash.new 4 4 8 1).map (fun g => g.read 9 3)
        = some (some (.error .OutOfBounds))) ↔ 9 + 3 > 1 * 8)
    ∧ (((SimFlash.new 4 4 8 1).map (fun g => g.read 9 3)
        = some (some (.error .NotAligned)))
      ↔ (9 + 3 ≤ 1 * 8 ∧ (9 % 4 ≠ 0 ∨ 3 % 4 ≠ 0))) :=
  C5_read_error_classification 4 4 8 1 _ rfl (by decide) 9 3

/-- Claim C5 counterexample: the claim as stated demands `NotAligned`
when both conditions are violated; the code returns `OutOfBounds`. -/
theorem C5_counterexample :
    ((SimFlash.new 4 4 8 1).map (fun g => g.read 9 3))
        = some (some (.error .OutOfBounds))
    ∧ (9 % 4 ≠ 0 ∨ 3 % 4 ≠ 0)
    ∧ ((SimFlash.new 4 4 8 1).map (fun g => g.read 9 3))
        ≠ some (some (.error .NotAligned)) := by
  refine ⟨by decide, by decide, by decide⟩

/-! ## Claim C9 -/

/-- Claim C9 (amended): on a device with at least one erase unit (so
the tail address computation does not panic), `StatusLayout::read`
propagates every flash error, including `NotWritten` from a blank
(never written) tail region; no error is special-cased as "blank" —
the original claim's exception for `NotWritten` does not hold. -/
theorem C9_status_read_propagates_flash_errors (l : boot.StatusLayout) (f : SimFlash)
    (e : storage.Error) (hgeom : f.capacity / f.erase_size ≠ 0)
    (he : f.read (boot.tailAddr l f) boot.STATUS_TAIL_SIZE = some (.error e)) :
    l.read f = some (.error (.Flash e)) := by
  unfold boot.StatusLayout.read
  rw [if_neg hgeom]
  rw [he]

/-- Claim C9 witness: reading the status of a fresh overwrite-style
simulator (32 erase units, tail region never written) fails with
`Flash(NotWritten)`. -/
theorem C9_witness : boot.StatusLayout.read ovLayout c9flash = some (.error (.Flash .NotWritten)) :=
  C9_status_read_propagates_flash_errors ovLayout c9flash .NotWritten (by decide) (by decide)

/-- Claim C9 counterexample: on the layout computed by `status_layout`
for the overwrite slot pair, reading a fresh flash does not return
success (the claim says a `NotWritten` tail is treated as blank and
the read succeeds); it returns `Err(Flash(NotWritten))`. -/
theorem C9_counterexample :
    boot.SlotInfo.status_layout ovSlot ovSlot = some ovLayout
    ∧ boot.StatusLayout.read ovLayout c9flash = some (.error (.Flash .NotWritten))
    ∧ boot.StatusLayout.read ovLayout c9flash ≠ some (.ok ()) := by
  refine ⟨by decide, by decide, by decide⟩

/-! ## Claims C6 and C7 -/

/-- The hash-page loop distributes exactly its count over the pages. -/
theorem hashPagesLoop_sum (fuel : Nat) : ∀ (quarter count pushes : Nat) (out : List Nat),
    boot.hashPagesLoop fuel quarter count pushes = some out → out.sum = count := by
  induction fuel with
  | zero =>
    intro q c p out h
    cases c with
    | zero =>
      simp only [boot.hashPagesLoop] at h
      injection h with h2
      subst h2
      rfl
    | succ c => simp [boot.hashPagesLoop] at h
  | succ fuel ih =>
    intro q c p out h
    cases c with
    | zero =>
      simp only [boot.hashPagesLoop] at h
      injection h with h2
      subst h2
      rfl
    | succ c =>
      unfold boot.hashPagesLoop at h
      dsimp only at h
      split at h
      · exact absurd h (by simp)
      · split at h
        · exact absurd h (by simp)
        · cases hrec : boot.hashPagesLoop fuel q (c + 1 - min q (c + 1)) (p + 1) with
          | none =>
            rw [hrec] at h
            exact absurd h (by simp)
          | some rest =>
            rw [hrec] at h
            injection h with h2
            subst h2
            have hs := ih q (c + 1 - min q (c + 1)) (p + 1) rest hrec
            have hmin : min q (c + 1) ≤ c + 1 := Nat.min_le_right _ _
            simp only [List.sum_cons, hs]
            omega

/-- The final block of `status_layout` caps the inline hashes at the
sector total and pushes the remainder; a returned layout accounts for
every image sector, its tail and flag fields are the given ones, and
the inline hash region fits below `pos`. -/
theorem statusFinish_spec (style : boot.StatusStyle) (es ws : Nat) (sect : Nat × Nat)
    (tail : Nat) (fl : Option (Nat × Nat × Nat)) (pos : Nat) (l : boot.StatusLayout)
    (h : boot.statusFinish style es ws sect tail fl pos = some l) :
    l.inline_hashes + l.hash_pages.sum = sect.1 + sect.2
    ∧ l.tail_pos = tail ∧ l.flags = fl ∧ 4 * l.inline_hashes ≤ pos := by
  unfold boot.statusFinish at h
  dsimp only at h
  cases hloop : boot.hashPagesLoop
      (sect.1 + sect.2 - min ((pos - (pos &&& (boot.usizeBound - es))) / 4) (sect.1 + sect.2))
      (es / 4)
      (sect.1 + sect.2 - min ((pos - (pos &&& (boot.usizeBound - es))) / 4) (sect.1 + sect.2))
      0 with
  | none =>
    rw [hloop] at h
    exact absurd h (by simp)
  | some hp =>
    rw [hloop] at h
    injection h with h2
    subst h2
    dsimp only
    have hsum := hashPagesLoop_sum _ _ _ _ _ hloop
    refine ⟨?_, rfl, rfl, ?_⟩
    · simp only [hsum]
      have : min ((pos - (pos &&& (boot.usizeBound - es))) / 4) (sect.1 + sect.2)
          ≤ sect.1 + sect.2 := Nat.min_le_right _ _
      omega
    · have h1 : min ((pos - (pos &&& (boot.usizeBound - es))) / 4) (sect.1 + sect.2)
          ≤ (pos - (pos &&& (boot.usizeBound - es))) / 4 := Nat.min_le_left _ _
      have h2 : (pos - (pos &&& (boot.usizeBound - es))) / 4 * 4
          ≤ pos - (pos &&& (boot.usizeBound - es)) := Nat.div_mul_le_self _ _
      omega

/-- Claim C6: every layout returned by `status_layout` satisfies
`inline_hashes + sum(hash_pages) = ceil(main_size / E) + ceil(upgrade_size / E)`
with `E = max(main.erase_size, upgrade.erase_size)`. -/
theorem C6_status_layout_hash_total (m u : boot.SlotInfo) (l : boot.StatusLayout)
    (h : m.status_layout u = some l) :
    l.inline_hashes + l.hash_pages.sum
      = boot.divCeil m.image_size (max m.erase_size u.erase_size)
        + boot.divCeil u.image_size (max m.erase_size u.erase_size) := by
  unfold boot.SlotInfo.status_layout at h
  dsimp only at h
  split at h
  · exact absurd h (by simp)
  · split at h
    · exact absurd h (by simp)
    · split at h
      · exact absurd h (by simp)
      · split at h
        · exact absurd h (by simp)
        · split at h
          · split at h
            · exact absurd h (by simp)
            · exact (statusFinish_spec _ _ _ _ _ _ _ _ h).1
          · exact (statusFinish_spec _ _ _ _ _ _ _ _ h).1

/-- Claim C6 witness: the paged LPC-style pair (erase 512, image 71842
bytes each, 141 sectors each) yields 116 inline hashes plus pages of
128 and 38, totalling 282 = 141 + 141. -/
theorem C6_witness :
    pgLayout.inline_hashes + pgLayout.hash_pages.sum
      = boot.divCeil pgSlot.image_size (max pgSlot.erase_size pgSlot.erase_size)
        + boot.divCeil pgSlot.image_size (max pgSlot.erase_size pgSlot.erase_size) :=
  C6_status_layout_hash_total pgSlot pgSlot pgLayout (by decide)

/-- A power-of-two check in the Rust sense implies positivity. -/
theorem is_power_of_two_pos (n : Nat) (h : boot.is_power_of_two n = true) : 0 < n := by
  unfold boot.is_power_of_two at h
  simp at h
  omega

/-- The overwrite flag slots step down by one write unit each, below
the (rounded) tail position. -/
theorem overwriteFlags_spec (tail W md cd ok : Nat) (hW : 0 < W)
    (h : boot.overwriteFlags tail W = some (md, cd, ok)) :
    ok < cd ∧ cd < md ∧ md < tail := by
  unfold boot.overwriteFlags at h
  dsimp only at h
  have hle : tail &&& (boot.usizeBound - W) ≤ tail := Nat.and_le_left
  split at h
  · exact absurd h (by simp)
  · split at h
    · exact absurd h (by simp)
    · split at h
      · exact absurd h (by simp)
      · injection h with h2
        injection h2 with ha hb
        injection hb with hb hc
        omega

/-- Claim C7 (amended): in every layout returned by `status_layout`
that carries flag slots, the flags descend strictly below `tail_pos`
in the order move-done, copy-done, image-ok, and the inline hash
region lies strictly below all of them (it ends at the image-ok
slot); the original claim stated the opposite order. -/
theorem C7_layout_flag_ordering (m u : boot.SlotInfo) (l : boot.StatusLayout)
    (md cd ok : Nat) (h : m.status_layout u = some l)
    (hfl : l.flags = some (md, cd, ok)) :
    ok < cd ∧ cd < md ∧ md < l.tail_pos ∧ 4 * l.inline_hashes ≤ ok := by
  unfold boot.SlotInfo.status_layout at h
  dsimp only at h
  split at h
  · exact absurd h (by simp)
  · split at h
    · exact absurd h (by simp)
    · split at h
      · exact absurd h (by simp)
      · split at h
        · exact absurd h (by simp)
        · split at h
          · split at h
            · exact absurd h (by simp)
            · rename_i fl hofl
              have hspec := statusFinish_spec _ _ _ _ _ _ _ _ h
              have hW : 0 < m.write_size := by
                have h2 : ¬¬ (boot.is_power_of_two m.write_size = true) := by assumption
                exact is_power_of_two_pos _ (not_not.mp h2)
              have hflv : fl = (md, cd, ok) := by
                rw [hspec.2.2.1] at hfl
                injection hfl
              subst hflv
              have hord := overwriteFlags_spec _ _ _ _ _ hW hofl
              have hpos := hspec.2.2.2
              refine ⟨hord.1, hord.2.1, ?_, hpos⟩
              rw [hspec.2.1]
              exact hord.2.2
          · have hspec := statusFinish_spec _ _ _ _ _ _ _ _ h
            rw [hspec.2.2.1] at hfl
            cases hfl

/-- Claim C7 witness: for the overwrite slot pair, the flag slots 4040,
4032, 4024 descend strictly below `tail_pos = 4048` and the four
inline hashes (16 bytes) fit below the image-ok slot. -/
theorem C7_witness :
    4024 < 4032 ∧ 4032 < 4040 ∧ 4040 < ovLayout.tail_pos
      ∧ 4 * ovLayout.inline_hashes ≤ 4024 :=
  C7_layout_flag_ordering ovSlot ovSlot ovLayout 4040 4032 4024 (by decide) rfl

/-- Claim C7 counterexample: the claim as stated places `tail_pos`
strictly below every flag slot; in the computed layout `tail_pos` is
4048 while the highest flag slot is 4040. -/
theorem C7_counterexample :
    (boot.SlotInfo.status_layout ovSlot ovSlot).map (fun l => (l.tail_pos, l.flags))
      = some (4048, some (4040, 4032, 4024))
    ∧ ¬ (4048 < 4040) := by
  refine ⟨by decide, by decide⟩

/-! ## Claim C8 -/

/-- Claim C8 (amended): besides the 32-byte header and the 4-byte
`TlvInfo`, `from_flash` walks the TLV region, reading each 4-byte entry
header; when the header magic is valid, `hdr_size + img_size` does not
overflow, the `TlvInfo` magic is valid, and the entry-header walk
succeeds, `from_flash` succeeds, never examining entry kinds or
payload bytes, and the image is usable for size queries.  (The original
claim stated that the entries are not walked at all.) -/
theorem C8_from_flash_walks_entries (f : SimFlash) (hb ib : List Nat)
    (h1 : f.read 0 32 = some (.ok hb))
    (h2 : boot.le32 hb 0 = boot.IMAGE_MAGIC)
    (h3 : boot.le32 hb 12 + boot.le16 hb 8 < boot.usizeBound)
    (h4 : f.read (boot.le32 hb 12 + boot.le16 hb 8) 4 = some (.ok ib))
    (h5 : boot.le16 ib 0 = boot.TLV_INFO_MAGIC)
    (h6 : boot.walkEntries f (boot.le32 hb 12 + boot.le16 hb 8) (boot.le16 ib 2) 4
        = some (.ok ())) :
    boot.Image.from_flash f
      = some (.ok { header := boot.parseHeader hb,
                    tlv_base := boot.le32 hb 12 + boot.le16 hb 8,
                    tlv_size := boot.le16 ib 2 })
    ∧ boot.Image.full_image_size
        { header := boot.parseHeader hb,
          tlv_base := boot.le32 hb 12 + boot.le16 hb 8,
          tlv_size := boot.le16 ib 2 }
      = boot.le32 hb 12 + boot.le16 hb 8 + boot.le16 ib 2 := by
  constructor
  · unfold boot.Image.from_flash
    rw [h1]
    dsimp only [boot.parseHeader]
    rw [if_neg (by simp [h2])]
    rw [if_neg (by omega)]
    rw [h4]
    dsimp only
    rw [if_neg (by simp [h5])]
    rw [h6]
  · rfl

/-- Claim C8 witness: on `c8goodflash` the single TLV entry has the
unrecognized kind `0x99`, yet `from_flash` succeeds (it only reads the
entry header during the walk) and `full_image_size` is 44. -/
theorem C8_witness :
    boot.Image.from_flash c8goodflash
      = some (.ok { header := boot.parseHeader c8bytes, tlv_base := 32, tlv_size := 12 })
    ∧ boot.Image.full_image_size
        { header := boot.parseHeader c8bytes, tlv_base := 32, tlv_size := 12 } = 44 :=
  C8_from_flash_walks_entries c8goodflash _ _ rfl rfl (by decide) rfl rfl rfl

/-- Claim C8 counterexample: `c8flash` has a valid header, a
non-overflowing `hdr_size + img_size = 32`, and a valid `TlvInfo`
claiming a 12-byte region, but its single entry header (at offset 36)
is unwritten; `from_flash` fails with `Flash(NotWritten)` instead of
succeeding as the claim requires. -/
theorem C8_counterexample :
    boot.Image.from_flash c8flash = some (.error (.Flash .NotWritten))
    ∧ boot.le32 c8bytes 0 = boot.IMAGE_MAGIC
    ∧ boot.le16 c8bytes 32 = boot.TLV_INFO_MAGIC
    ∧ boot.le32 c8bytes 12 + boot.le16 c8bytes 8 = 32 := by
  refine ⟨by decide, by decide, by decide, by decide⟩

/-- Flash states built from a byte list hold only byte values. -/
theorem flashOfBytes_data_lt (rs ws es cap np : Nat) (bytes : List Nat) (wp : Nat)
    (h : ∀ b ∈ bytes, b < 256) :
    ∀ x, (flashOfBytes rs ws es cap np bytes wp).data x < 256 := by
  intro x
  unfold flashOfBytes
  dsimp only
  split
  · exact getD_lt_256 bytes x h
  · omega

/-! ## Claim C4 -/

/-- The TLV entry walk of `from_flash` never panics: the cursor stays
below `2^16 + 2^17`, so neither unchecked addition can reach `2^64`,
and the fuel (which allows one step per 4 cursor positions) suffices. -/
theorem walkEntriesF_ne_none (f : SimFlash) (hrs : f.read_size ≠ 0)
    (hdata : ∀ x, f.data x < 256) (base limit : Nat)
    (hbase : base < 2 ^ 33) (hlimit : limit < 2 ^ 16) :
    ∀ (fuel pos : Nat), limit ≤ pos + 4 * fuel →
      boot.walkEntriesF f base limit fuel pos ≠ none := by
  intro fuel
  induction fuel with
  | zero =>
    intro pos hle
    unfold boot.walkEntriesF
    rw [if_neg (by omega)]
    simp
  | succ fuel ih =>
    intro pos hle
    unfold boot.walkEntriesF
    by_cases hp : pos < limit
    · rw [if_pos hp]
      rw [if_neg (by simp only [boot.usizeBound]; omega)]
      cases hr : f.read (base + pos) 4 with
      | none => exact absurd hr (read_ne_none f _ 4 hrs (by omega))
      | some r =>
        cases r with
        | error e => simp
        | ok eb =>
          dsimp only
          have heb : ∀ b ∈ eb, b < 256 := read_ok_bytes_lt f _ 4 eb hr hdata
          have hlt := le16_lt eb 2 heb
          rw [if_neg (by simp only [boot.usizeBound]; omega)]
          exact ih (pos + 4 + boot.le16 eb 2) (by omega)
    · rw [if_neg hp]
      simp

/-- `Image::from_flash` never panics on a flash with byte-sized
contents and a nonzero read size: every checked addition either
succeeds or reports `InvalidImage`, and the walk additions stay far
below the `usize` bound because the header fields are at most 32 and
16 bits. -/
theorem from_flash_ne_none (f : SimFlash) (hrs : f.read_size ≠ 0)
    (hdata : ∀ x, f.data x < 256) : boot.Image.from_flash f ≠ none := by
  unfold boot.Image.from_flash
  cases h1 : f.read 0 32 with
  | none => exact absurd h1 (read_ne_none f 0 32 hrs (by omega))
  | some r =>
    cases r with
    | error e => simp
    | ok hb =>
      dsimp only
      by_cases hm : (boot.parseHeader hb).magic ≠ boot.IMAGE_MAGIC
      · rw [if_pos hm]
        simp
      · rw [if_neg hm]
        by_cases hov : (boot.parseHeader hb).img_size + (boot.parseHeader hb).hdr_size ≥ boot.usizeBound
        · rw [if_pos hov]
          simp
        · rw [if_neg hov]
          have hhb : ∀ b ∈ hb, b < 256 := read_ok_bytes_lt f 0 32 hb h1 hdata
          have hbase : (boot.parseHeader hb).img_size + (boot.parseHeader hb).hdr_size < 2 ^ 33 := by
            have h32 := le32_lt hb 12 hhb
            have h16 := le16_lt hb 8 hhb
            simp only [boot.parseHeader]
            omega
          cases h4 : f.read ((boot.parseHeader hb).img_size + (boot.parseHeader hb).hdr_size) 4 with
          | none => exact absurd h4 (read_ne_none f _ 4 hrs (by omega))
          | some r2 =>
            cases r2 with
            | error e => simp
            | ok ib =>
              dsimp only
              by_cases h5 : boot.le16 ib 0 ≠ boot.TLV_INFO_MAGIC
              · rw [if_pos h5]
                simp
              · rw [if_neg h5]
                have hib : ∀ b ∈ ib, b < 256 := read_ok_bytes_lt f _ 4 ib h4 hdata
                have hlim := le16_lt ib 2 hib
                cases h6 : boot.walkEntries f
                    ((boot.parseHeader hb).img_size + (boot.parseHeader hb).hdr_size)
                    (boot.le16 ib 2) 4 with
                | none =>
                  exact absurd h6 (walkEntriesF_ne_none f hrs hdata _ _ hbase hlim
                    (boot.le16 ib 2) 4 (by omega))
                | some r3 => cases r3 <;> simp

/-- Claim C4 (amended): `from_flash` never panics from address
arithmetic; but on the 64-bit host an image claiming
`img_size = u32::MAX` is rejected with `Flash(OutOfBounds)` (the
`TlvInfo` read at `hdr_size + img_size` fails the flash bounds check,
to which the code deliberately delegates), not with `InvalidImage` as
the original claim stated. -/
theorem C4_from_flash_no_panic (f : SimFlash)
    (hrs : f.read_size ≠ 0) (hdata : ∀ x, f.data x < 256) :
    boot.Image.from_flash f ≠ none
    ∧ (∀ hb : List Nat, f.read 0 32 = some (.ok hb) →
        boot.le32 hb 0 = boot.IMAGE_MAGIC →
        boot.le32 hb 12 = 2 ^ 32 - 1 →
        f.capacity < 2 ^ 32 →
        boot.Image.from_flash f = some (.error (.Flash .OutOfBounds))) := by
  refine ⟨from_flash_ne_none f hrs hdata, ?_⟩
  intro hb h1 h2 h3 hcap
  have hhb : ∀ b ∈ hb, b < 256 := read_ok_bytes_lt f 0 32 hb h1 hdata
  have h16 := le16_lt hb 8 hhb
  unfold boot.Image.from_flash
  rw [h1]
  dsimp only [boot.parseHeader]
  rw [if_neg (by simp [h2])]
  rw [if_neg (by simp only [boot.usizeBound]; omega)]
  have hread : f.read (boot.le32 hb 12 + boot.le16 hb 8) 4
      = some (.error .OutOfBounds) := by
    unfold SimFlash.read SimFlash.check_read storage.check_slice
    rw [if_pos (by omega)]
  rw [hread]

/-- Claim C4 witness: on `c4flash` (valid magic, `img_size = u32::MAX`,
capacity 128) `from_flash` does not panic and returns
`Flash(OutOfBounds)`. -/
theorem C4_witness :
    boot.Image.from_flash c4flash ≠ none
    ∧ boot.Image.from_flash c4flash = some (.error (.Flash .OutOfBounds)) :=
  ⟨(C4_from_flash_no_panic c4flash (by decide)
      (flashOfBytes_data_lt 1 1 1 128 128 c4bytes 32 (by decide))).1,
   (C4_from_flash_no_panic c4flash (by decide)
      (flashOfBytes_data_lt 1 1 1 128 128 c4bytes 32 (by decide))).2
     _ rfl rfl (by decide) (by decide)⟩

/-- Claim C4 counterexample: the claim requires `InvalidImage` for the
`u32::MAX` image; the code returns `Flash(OutOfBounds)`. -/
theorem C4_counterexample :
    boot.Image.from_flash c4flash = some (.error (.Flash .OutOfBounds))
    ∧ boot.Image.from_flash c4flash ≠ some (.error .InvalidImage)
    ∧ boot.le32 c4bytes 12 = 2 ^ 32 - 1
    ∧ boot.le32 c4bytes 0 = boot.IMAGE_MAGIC := by
  refine ⟨by decide, by decide, by decide, by decide⟩

/-! ## Claim C3 -/

/-- An address inside a byte range lies in a page of that range. -/
theorem mem_pageRange_of_range (W a b x : Nat) (hW : 0 < W)
    (h1 : a ≤ x) (h2 : x < b) : x / W ∈ SimFlash.pageRange W a b := by
  unfold SimFlash.pageRange
  rw [List.mem_range'_1]
  have hlow : a / W ≤ x / W := Nat.div_le_div_right h1
  have hhigh : x / W ≤ (b - 1) / W := Nat.div_le_div_right (by omega)
  omega

/-- An address below an aligned range start lies in no page of the
range. -/
theorem not_mem_pageRange_of_lt (W a b x : Nat) (hW : 0 < W)
    (ha : W ∣ a) (hx : x < a) : x / W ∉ SimFlash.pageRange W a b := by
  unfold SimFlash.pageRange
  rw [List.mem_range'_1]
  intro hcon
  have h1 : x / W < a / W := by
    rcases ha with ⟨m, rfl⟩
    have h2 : W * m / W = m := Nat.mul_div_cancel_left m hW
    have h3 : x / W < m := Nat.div_lt_of_lt_mul hx
    omega
  omega

/-- An address at or past an aligned, positive range end lies in no
page of the range. -/
theorem not_mem_pageRange_of_ge (W a b x : Nat) (hW : 0 < W)
    (hb : W ∣ b) (hb0 : 0 < b) (hx : b ≤ x) : x / W ∉ SimFlash.pageRange W a b := by
  unfold SimFlash.pageRange
  rw [List.mem_range'_1]
  intro hcon
  have hkey : (b - 1) / W + 1 ≤ x / W := by
    rcases hb with ⟨m, rfl⟩
    have hm : m ≠ 0 := by
      rintro rfl
      simp at hb0
    have h2 : m ≤ x / W := (Nat.le_div_iff_mul_le hW).mpr (by
      calc m * W = W * m := Nat.mul_comm m W
        _ ≤ x := hx)
    have h3 : (W * m - 1) / W < m := Nat.div_lt_of_lt_mul (by omega)
    omega
  omega

/-- The invariant tying a simulator state to the reference semantics:
every byte of a `Written` page holds the byte last written there. -/
def SimInv (f : SimFlash) (rv : Nat → RefVal) : Prop :=
  ∀ x, f.pageState (x / f.write_size) = .Written → rv x = .written (f.data x)

/-- A successful erase preserves the invariant (against the reference
update that marks the erased byte range) and the device geometry. -/
theorem erase_ok_inv (f : SimFlash) (rv : Nat → RefVal) (a b : Nat) (u : Unit)
    (f2 : SimFlash) (hW : 0 < f.write_size) (hinv : SimInv f rv)
    (h : f.erase a b = some (.ok u, f2)) :
    SimInv f2 (refStep rv (.eraseOp a b))
    ∧ f2.write_size = f.write_size ∧ f2.read_size = f.read_size
    ∧ f2.capacity = f.capacity ∧ f2.erase_size = f.erase_size := by
  unfold SimFlash.erase at h
  cases hc : storage.check_erase f.erase_size f.capacity a b with
  | none =>
    rw [hc] at h
    exact absurd h (by simp)
  | some r =>
    rw [hc] at h
    cases r with
    | error e => simp at h
    | ok u2 =>
      by_cases hb0 : b = 0
      · rw [if_pos hb0] at h
        exact absurd h (by simp)
      · rw [if_neg hb0] at h
        dsimp only at h
        injection h with h2
        injection h2 with h3 h4
        subst h4
        refine ⟨?_, rfl, rfl, rfl, rfl⟩
        intro x hx
        dsimp only at hx ⊢
        simp only [refStep]
        by_cases hin : a ≤ x ∧ x < b
        · exfalso
          have hmem : x / f.write_size ∈ f.pages a b :=
            mem_pageRange_of_range _ _ _ _ hW hin.1 hin.2
          rw [if_pos hmem] at hx
          exact absurd hx (by simp)
        · rw [if_neg hin]
          by_cases hmem : x / f.write_size ∈ f.pages a b
          · rw [if_pos hmem] at hx
            exact absurd hx (by simp)
          · rw [if_neg hmem] at hx
            exact hinv x hx

/-- A successful write preserves the invariant (against the reference
update that records the bytes written) and the device geometry. -/
theorem write_ok_inv (f : SimFlash) (rv : Nat → RefVal) (off : Nat) (bs : List Nat)
    (u : Unit) (f2 : SimFlash) (hinv : SimInv f rv)
    (h : f.write off bs = some (.ok u, f2)) :
    SimInv f2 (refStep rv (.writeOp off bs))
    ∧ f2.write_size = f.write_size ∧ f2.read_size = f.read_size
    ∧ f2.capacity = f.capacity ∧ f2.erase_size = f.erase_size := by
  unfold SimFlash.write SimFlash.check_write storage.check_slice at h
  by_cases hoob : bs.length > f.capacity ∨ off > f.capacity - bs.length
  · rw [if_pos hoob] at h
    simp at h
  · rw [if_neg hoob] at h
    by_cases hW0 : f.write_size = 0
    · rw [if_pos hW0] at h
      exact absurd h (by simp)
    · rw [if_neg hW0] at h
      by_cases hal : off % f.write_size ≠ 0 ∨ bs.length % f.write_size ≠ 0
      · rw [if_pos hal] at h
        simp at h
      · rw [if_neg hal] at h
        by_cases h0 : off + bs.length = 0
        · rw [if_pos h0] at h
          exact absurd h (by simp)
        · rw [if_neg h0] at h
          by_cases hers : ∀ p ∈ f.pages off (off + bs.length), f.pageState p = PageState.Erased
          · rw [if_pos hers] at h
            injection h with h2
            injection h2 with h3 h4
            subst h4
            have hW : 0 < f.write_size := by omega
            push_neg at hal
            have hdo : f.write_size ∣ off := Nat.dvd_of_mod_eq_zero hal.1
            have hdl : f.write_size ∣ bs.length := Nat.dvd_of_mod_eq_zero hal.2
            refine ⟨?_, rfl, rfl, rfl, rfl⟩
            intro x hx
            dsimp only at hx ⊢
            simp only [refStep]
            by_cases hin : off ≤ x ∧ x < off + bs.length
            · rw [if_pos hin]
              rw [if_pos hin]
            · rw [if_neg hin]
              rw [if_neg hin]
              by_cases hmem : x / f.write_size ∈ f.pages off (off + bs.length)
              · exfalso
                rcases (by omega : x < off ∨ off + bs.length ≤ x) with hlt | hge
                · exact not_mem_pageRange_of_lt _ _ _ _ hW hdo hlt hmem
                · exact not_mem_pageRange_of_ge _ _ _ _ hW (Nat.dvd_add hdo hdl) (by omega) hge hmem
              · rw [if_neg hmem] at hx
                exact hinv x hx
          · rw [if_neg hers] at h
            simp at h

/-- Running a legal call sequence preserves the invariant and the
geometry. -/
theorem runOps_inv (ops : List Op) : ∀ (f : SimFlash) (rv : Nat → RefVal) (g : SimFlash),
    0 < f.write_size → SimInv f rv → runOps f ops = some g →
    SimInv g (refRun rv ops)
    ∧ g.write_size = f.write_size ∧ g.read_size = f.read_size
    ∧ g.capacity = f.capacity ∧ g.erase_size = f.erase_size := by
  induction ops with
  | nil =>
    intro f rv g hW hinv h
    unfold runOps at h
    injection h with h2
    subst h2
    exact ⟨hinv, rfl, rfl, rfl, rfl⟩
  | cons op ops ih =>
    intro f rv g hW hinv h
    unfold runOps at h
    split at h
    · rename_i u f2 heq
      have hstep :
          SimInv f2 (refStep rv op)
          ∧ f2.write_size = f.write_size ∧ f2.read_size = f.read_size
          ∧ f2.capacity = f.capacity ∧ f2.erase_size = f.erase_size := by
        cases op with
        | eraseOp a b => exact erase_ok_inv f rv a b u f2 hW hinv heq
        | writeOp o bs => exact write_ok_inv f rv o bs u f2 hinv heq
      have hrec := ih f2 (refStep rv op) g (by omega) hstep.1 h
      refine ⟨hrec.1, ?_, ?_, ?_, ?_⟩ <;> omega
    · exact absurd h (by simp)

/-- Inverting a successful `SimFlash::new`. -/
theorem new_fields (rs ws es sec : Nat) (f0 : SimFlash)
    (h : SimFlash.new rs ws es sec = some f0) :
    f0.read_size = rs ∧ f0.write_size = ws ∧ f0.erase_size = es
    ∧ f0.capacity = sec * es ∧ 0 < ws ∧ (∀ p, f0.pageState p = .Unknown) := by
  unfold SimFlash.new at h
  split at h
  · exact absurd h (by simp)
  · split at h
    · exact absurd h (by simp)
    · split at h
      · exact absurd h (by simp)
      · injection h with h2
        subst h2
        have hws : ¬ ws = 0 := by assumption
        exact ⟨rfl, rfl, rfl, rfl, by omega, fun p => rfl⟩

/-- Claim C3: after any legal sequence of erase and write calls on a
fresh simulator (every call returning `Ok`), a successful read returns
at every byte address the last byte written there (or `0xFF` for an
address erased and untouched since, a case `lastByte` also covers);
and a read with valid arguments touching a write unit that is not
`Written` fails with `NotWritten`. -/
theorem C3_read_after_legal_trace
    (rs ws es sec : Nat) (ops : List Op) (f : SimFlash)
    (off len i off2 len2 : Nat) (r : List Nat)
    (hf : simRun rs ws es sec ops = some f)
    (hread : f.read off len = some (.ok r))
    (hi : i < len)
    (ha2 : off2 % rs = 0) (hl2 : len2 % rs = 0)
    (hb2 : off2 + len2 ≤ sec * es) (hlen2 : 0 < len2)
    (hp : ∃ p ∈ SimFlash.pageRange ws off2 (off2 + len2), f.pageState p ≠ .Written) :
    lastByte (refRun refInit ops) (off + i) = some (r.getD i 0)
    ∧ (simRun rs ws es sec ops).map (fun g => g.read off2 len2)
        = some (some (.error .NotWritten)) := by
  have hfKeep := hf
  unfold simRun at hf
  cases hnew : SimFlash.new rs ws es sec with
  | none =>
    rw [hnew] at hf
    exact absurd hf (by simp)
  | some f0 =>
    rw [hnew] at hf
    dsimp only [Option.bind] at hf
    have hnf := new_fields rs ws es sec f0 hnew
    have hW : 0 < ws := hnf.2.2.2.2.1
    have hinv0 : SimInv f0 refInit := by
      intro x hx
      rw [hnf.2.2.2.2.2] at hx
      simp at hx
    have hrun := runOps_inv ops f0 refInit f (by rw [hnf.2.1]; exact hW) hinv0 hf
    obtain ⟨hinvf, hfw, hfr, hfc, hfe⟩ := hrun
    have hfw2 : f.write_size = ws := by rw [hfw, hnf.2.1]
    have hfr2 : f.read_size = rs := by rw [hfr, hnf.1]
    have hfc2 : f.capacity = sec * es := by rw [hfc, hnf.2.2.2.1]
    have hpages : ∀ a b : Nat, f.pages a b = SimFlash.pageRange ws a b := by
      intro a b
      unfold SimFlash.pages
      rw [hfw2]
    constructor
    · have hro := read_ok_elim f off len r hread
      have hmem : f.pageState ((off + i) / f.write_size) = .Written := by
        apply hro.1
        rw [hpages]
        rw [← hfw2]
        exact mem_pageRange_of_range _ _ _ _ (by omega) (by omega) (by omega)
      have hval := hinvf (off + i) hmem
      unfold lastByte
      rw [hval]
      have hgd : r.getD i 0 = f.data (off + i) := by
        rw [hro.2]
        exact getD_map_range _ _ _ hi
      rw [hgd]
    · rw [hfKeep]
      rw [Option.map_some']
      have hgoal : f.read off2 len2 = some (.error .NotWritten) := by
        unfold SimFlash.read SimFlash.check_read storage.check_slice
        rw [hfr2, hfc2]
        have hrsne : rs ≠ 0 := by
          intro h0
          rw [h0, Nat.mod_zero] at hl2
          omega
        rw [if_neg (by omega)]
        rw [if_neg hrsne]
        rw [if_neg (by omega)]
        rw [if_neg (by omega)]
        rw [if_neg (by
          intro hall
          obtain ⟨p, hpm, hps⟩ := hp
          apply hps
          apply hall
          rw [hpages]
          exact hpm)]
      rw [hgoal]

/-- A short legal trace: erase the first sector, write four bytes. -/
def c3ops : List Op := [.eraseOp 0 8, .writeOp 0 [1, 2, 3, 4]]

/-- Claim C3 witness: on a fresh 16-byte simulator (write unit 4), after
erasing `[0, 8)` and writing `[1, 2, 3, 4]` at 0, a successful read of
`[0, 4)` returns byte 3 at address 2 (the last byte written there), and
a read of the erased-but-unwritten `[4, 8)` fails with `NotWritten`. -/
theorem C3_witness :
    lastByte (refRun refInit c3ops) (0 + 2) = some 3
    ∧ (simRun 1 4 8 2 c3ops).map (fun g => g.read 4 4)
        = some (some (.error .NotWritten)) :=
  C3_read_after_legal_trace 1 4 8 2 c3ops _ 0 4 2 4 4 _ rfl rfl
    (by decide) (by decide) (by decide) (by decide) (by decide) (by decide)
